import Mathlib

/-!
# Verification of the differentiable inverse-warp pipeline

A shallow embedding of the geometric pipeline in `inverse_warp.py`:
the homogeneous pixel-grid cache (`set_id_grid` / the fetch logic in
`pixel2cam`), shape validation (`check_sizes`), pixel-to-camera
unprojection (`pixel2cam`), camera-to-pixel reprojection with depth
clamping and out-of-range masking (`cam2pixel`), Euler-angle rotation
composition (`euler2mat`), pose-vector assembly (`pose_vec2mat`), and the
orchestrator (`inverse_warp`).

Tensors are embedded as functions from index types to real numbers; a
batched operation acts identically and independently on every batch
element, so value-level definitions are stated per batch element.  Shape
level behaviour (validation, error propagation, result shapes) is embedded
separately over shape lists.  Machine floats are modelled by real numbers.
-/

namespace SfmLearner

open Matrix

/-! ## Shape-level model: `check_sizes` and the orchestrator guards

Shapes are lists of dimension sizes.  `check_sizes(input, name, expected)`
in the source builds a list of conditions: the rank must equal the length
of the pattern string, and each pattern character that is a digit pins the
corresponding dimension.  Accessing `input.size(i)` for `i` at or beyond
the rank raises a dimension-out-of-range error before the assertion is
ever evaluated; otherwise a failed condition list raises an assertion
error carrying the argument name, the pattern and the actual shape. -/

/-- Errors observable from the shape-level pipeline: a dimension
out-of-range error from `Tensor.size(i)`, the descriptive assertion error
raised by `check_sizes`, the bare `assert` comparing the two intrinsics
shapes, and a runtime shape error from `bmm` / `grid_sample` batch
mismatches. -/
inductive CheckError where
  | dimOutOfRange (dim : ℕ)
  | assertionError (input_name : String) (expected : String) (got : List ℕ)
  | bareAssert
  | runtimeShapeError
  deriving DecidableEq

/-- `Tensor.size(i)`: the `i`-th dimension of a shape, failing with a
dimension-out-of-range error when `i` is not a valid dimension index. -/
def tsize (shape : List ℕ) (i : ℕ) : Except CheckError ℕ :=
  if i < shape.length then .ok (shape.getD i 0) else .error (.dimOutOfRange i)

/-- The loop body of `check_sizes`: for each pattern character that is a
digit, read the corresponding dimension via `tsize` and record whether it
equals the digit value.  The first out-of-range access aborts the loop. -/
def sizeConds (shape : List ℕ) : List Char → ℕ → Except CheckError (List Bool)
  | [], _ => .ok []
  | c :: rest, i =>
    if c.isDigit then
      match tsize shape i with
      | .error e => .error e
      | .ok s =>
        match sizeConds shape rest (i + 1) with
        | .error e => .error e
        | .ok l => .ok ((s == c.toNat - 48) :: l)
    else sizeConds shape rest (i + 1)

/-- `check_sizes(input, input_name, expected)`: all conditions (rank
equality followed by the digit conditions) must hold, else an assertion
error naming the argument, the pattern and the actual shape is raised. -/
def check_sizes (shape : List ℕ) (input_name : String) (expected : String) :
    Except CheckError Unit :=
  match sizeConds shape expected.toList 0 with
  | .error e => .error e
  | .ok conds =>
    if ((shape.length == expected.toList.length) :: conds).all id then .ok ()
    else .error (.assertionError input_name expected shape)

/-- Every digit position of the pattern is a valid dimension index of the
shape, so the condition loop of `check_sizes` runs without an
out-of-range error. -/
def digitsInRange (shape : List ℕ) : List Char → ℕ → Bool
  | [], _ => true
  | c :: rest, i =>
    (!c.isDigit || decide (i < shape.length)) && digitsInRange shape rest (i + 1)

/-- Every digit position of the pattern matches the corresponding
dimension of the shape. -/
def digitsMatch (shape : List ℕ) : List Char → ℕ → Bool
  | [], _ => true
  | c :: rest, i =>
    (!c.isDigit || (shape.getD i 0 == c.toNat - 48)) && digitsMatch shape rest (i + 1)

/-- A shape conforms to a pattern: its rank equals the pattern length and
every digit position matches. -/
def matchesPattern (shape : List ℕ) (p : List Char) : Bool :=
  (shape.length == p.length) && digitsMatch shape p 0

lemma sizeConds_ok_of_inRange (shape : List ℕ) :
    ∀ (p : List Char) (i : ℕ), digitsInRange shape p i = true →
      ∃ l, sizeConds shape p i = .ok l ∧ l.all id = digitsMatch shape p i := by
  intro p
  induction p with
  | nil => exact fun i _ => ⟨[], rfl, rfl⟩
  | cons c rest ih =>
    intro i hin
    rw [digitsInRange, Bool.and_eq_true] at hin
    obtain ⟨h1, h2⟩ := hin
    by_cases hc : c.isDigit
    · have hlen : i < shape.length := by
        rw [hc] at h1; simpa using h1
      obtain ⟨l, hl, hall⟩ := ih (i + 1) h2
      refine ⟨(shape.getD i 0 == c.toNat - 48) :: l, ?_, ?_⟩
      · rw [sizeConds, if_pos hc, tsize, if_pos hlen, hl]
      · rw [List.all_cons, hall, digitsMatch, hc]
        simp
    · obtain ⟨l, hl, hall⟩ := ih (i + 1) h2
      refine ⟨l, ?_, ?_⟩
      · rw [sizeConds, if_neg hc]; exact hl
      · rw [hall, digitsMatch]
        simp [hc]

lemma digitsInRange_of_sizeConds_ok (shape : List ℕ) :
    ∀ (p : List Char) (i : ℕ) (l : List Bool),
      sizeConds shape p i = .ok l → digitsInRange shape p i = true := by
  intro p
  induction p with
  | nil => intro i l _; rfl
  | cons c rest ih =>
    intro i l h
    rw [sizeConds] at h
    by_cases hc : c.isDigit
    · rw [if_pos hc] at h
      rw [digitsInRange, Bool.and_eq_true]
      by_cases hlen : i < shape.length
      · rw [tsize, if_pos hlen] at h
        constructor
        · simp [hlen]
        · cases hrec : sizeConds shape rest (i + 1) with
          | error e => rw [hrec] at h; cases h
          | ok l' => exact ih (i + 1) l' hrec
      · rw [tsize, if_neg hlen] at h; cases h
    · rw [if_neg hc] at h
      rw [digitsInRange, Bool.and_eq_true]
      exact ⟨by simp [hc], ih (i + 1) l h⟩

lemma digitsInRange_of_length (shape : List ℕ) :
    ∀ (p : List Char) (i : ℕ), p.length + i ≤ shape.length →
      digitsInRange shape p i = true := by
  intro p
  induction p with
  | nil => intro i _; rfl
  | cons c rest ih =>
    intro i hle
    rw [digitsInRange, Bool.and_eq_true]
    constructor
    · have : i < shape.length := by simp only [List.length_cons] at hle; omega
      simp [this]
    · exact ih (i + 1) (by simp only [List.length_cons] at hle; omega)

/-- `check_sizes` succeeds exactly on shapes conforming to the pattern. -/
lemma check_sizes_ok_iff (shape : List ℕ) (name pattern : String) :
    check_sizes shape name pattern = .ok () ↔
      matchesPattern shape pattern.toList = true := by
  constructor
  · intro h
    cases hsc : sizeConds shape pattern.toList 0 with
    | error e =>
      simp only [check_sizes, hsc] at h
      exact Except.noConfusion h
    | ok l =>
      simp only [check_sizes, hsc] at h
      have hin := digitsInRange_of_sizeConds_ok shape pattern.toList 0 l hsc
      obtain ⟨l', hl', hall⟩ := sizeConds_ok_of_inRange shape pattern.toList 0 hin
      rw [hsc] at hl'
      cases hl'
      by_cases hcond : (((shape.length == pattern.toList.length) :: l).all id : Bool) = true
      · rw [List.all_cons, id_eq] at hcond
        rw [matchesPattern]
        rw [Bool.and_eq_true] at hcond ⊢
        exact ⟨hcond.1, by rw [← hall]; exact hcond.2⟩
      · rw [if_neg hcond] at h; cases h
  · intro h
    rw [matchesPattern, Bool.and_eq_true] at h
    obtain ⟨hlen, hdm⟩ := h
    have hlen' : shape.length = pattern.toList.length := by simpa using hlen
    have hin := digitsInRange_of_length shape pattern.toList 0 (by omega)
    obtain ⟨l, hl, hall⟩ := sizeConds_ok_of_inRange shape pattern.toList 0 hin
    have hcond : (((shape.length == pattern.toList.length) :: l).all id : Bool) = true := by
      rw [List.all_cons, id_eq, hall, hdm, hlen]; rfl
    simp only [check_sizes, hl]
    rw [if_pos hcond]

/-- When every digit position of the pattern is a valid dimension index
but the shape does not conform, `check_sizes` raises the descriptive
assertion error carrying the argument name, the pattern and the shape. -/
lemma check_sizes_assertion (shape : List ℕ) (name pattern : String)
    (hin : digitsInRange shape pattern.toList 0 = true)
    (hnm : matchesPattern shape pattern.toList = false) :
    check_sizes shape name pattern = .error (.assertionError name pattern shape) := by
  obtain ⟨l, hl, hall⟩ := sizeConds_ok_of_inRange shape pattern.toList 0 hin
  have hcond : (((shape.length == pattern.toList.length) :: l).all id : Bool) = false := by
    rw [List.all_cons, id_eq, hall]
    have h2 := hnm
    rw [matchesPattern] at h2
    exact h2
  simp only [check_sizes, hl]
  rw [if_neg]
  rw [hcond]
  exact Bool.false_ne_true

/-- The validation and shape flow of `inverse_warp`: the five
`check_sizes` calls in source order (the inverse intrinsics are checked
under the name `intrinsics`, as in the source), the bare shape-equality
assert, then the batch-size requirements of the three `bmm` calls and of
`grid_sample`, and finally the shape rule of `grid_sample`: the output
takes its batch and channel sizes from `img` and its spatial sizes from
the sampling grid, which has the spatial sizes of `depth`. -/
def inverse_warp_shape (imgS depthS poseS KS KinvS : List ℕ) :
    Except CheckError (List ℕ) :=
  match check_sizes imgS "img" "B3HW" with
  | .error e => .error e
  | .ok _ =>
  match check_sizes depthS "depth" "BHW" with
  | .error e => .error e
  | .ok _ =>
  match check_sizes poseS "pose" "B6" with
  | .error e => .error e
  | .ok _ =>
  match check_sizes KS "intrinsics" "B33" with
  | .error e => .error e
  | .ok _ =>
  match check_sizes KinvS "intrinsics" "B33" with
  | .error e => .error e
  | .ok _ =>
  if KinvS ≠ KS then .error .bareAssert
  else if depthS.getD 0 0 ≠ KinvS.getD 0 0 then .error .runtimeShapeError
  else if poseS.getD 0 0 ≠ KS.getD 0 0 then .error .runtimeShapeError
  else if depthS.getD 0 0 ≠ KS.getD 0 0 then .error .runtimeShapeError
  else if imgS.getD 0 0 ≠ depthS.getD 0 0 then .error .runtimeShapeError
  else .ok [imgS.getD 0 0, imgS.getD 1 0, depthS.getD 1 0, depthS.getD 2 0]

/-- If the orchestrator returns successfully then every one of its five
`check_sizes` calls succeeded. -/
lemma inverse_warp_shape_ok (imgS depthS poseS KS KinvS : List ℕ) (out : List ℕ)
    (h : inverse_warp_shape imgS depthS poseS KS KinvS = .ok out) :
    check_sizes imgS "img" "B3HW" = .ok () ∧
    check_sizes depthS "depth" "BHW" = .ok () ∧
    check_sizes poseS "pose" "B6" = .ok () ∧
    check_sizes KS "intrinsics" "B33" = .ok () ∧
    check_sizes KinvS "intrinsics" "B33" = .ok () := by
  cases h1 : check_sizes imgS "img" "B3HW" with
  | error e =>
    simp only [inverse_warp_shape, h1] at h
    exact Except.noConfusion h
  | ok u1 =>
  cases h2 : check_sizes depthS "depth" "BHW" with
  | error e =>
    simp only [inverse_warp_shape, h1, h2] at h
    exact Except.noConfusion h
  | ok u2 =>
  cases h3 : check_sizes poseS "pose" "B6" with
  | error e =>
    simp only [inverse_warp_shape, h1, h2, h3] at h
    exact Except.noConfusion h
  | ok u3 =>
  cases h4 : check_sizes KS "intrinsics" "B33" with
  | error e =>
    simp only [inverse_warp_shape, h1, h2, h3, h4] at h
    exact Except.noConfusion h
  | ok u4 =>
  cases h5 : check_sizes KinvS "intrinsics" "B33" with
  | error e =>
    simp only [inverse_warp_shape, h1, h2, h3, h4, h5] at h
    exact Except.noConfusion h
  | ok u5 =>
  exact ⟨rfl, rfl, rfl, rfl, rfl⟩

lemma check_img_ok (b h w : ℕ) : check_sizes [b, 3, h, w] "img" "B3HW" = .ok () := rfl

lemma check_depth_ok (b h w : ℕ) : check_sizes [b, h, w] "depth" "BHW" = .ok () := rfl

lemma check_pose_ok (b : ℕ) : check_sizes [b, 6] "pose" "B6" = .ok () := rfl

lemma check_intrinsics_ok (b : ℕ) : check_sizes [b, 3, 3] "intrinsics" "B33" = .ok () := rfl

/-! ## The homogeneous pixel-grid cache

`set_id_grid` stores a `[1, 3, H, W]` tensor whose cell `(c, i, j)` holds
the column index `j` for channel `0`, the row index `i` for channel `1`
and `1.0` for channel `2`.  `pixel2cam` regenerates it only when there is
no cached grid or the cached height is smaller than the requested height,
then takes the slice `[:, :, :h, :w]` (Python slicing truncates at the
stored sizes) and calls `expand`, which requires every non-singleton
dimension to match the target and broadcasts dimensions of size one. -/

/-- Cell values of the grid built by `set_id_grid`: `(j, i, 1)` at row
`i`, column `j`. -/
def id_grid : ℕ → ℕ → ℕ → ℝ := fun c i j =>
  if c = 0 then (j : ℝ) else if c = 1 then (i : ℝ) else 1

/-- The per-dimension semantics of `Tensor.expand`: a dimension of actual
size `actual` can be expanded to `target` iff it already matches (indices
pass through) or it has size one (every index reads position `0`);
otherwise `expand` raises. -/
def expandDim (actual target : ℕ) : Option (ℕ → ℕ) :=
  if actual = target then some (fun k => k)
  else if actual = 1 then some (fun _ => 0) else none

/-- `pixel_coords[:, :, :h, :w].expand(b, 3, h, w)` on a cached grid of
stored sizes `H0 × W0`: the slice truncates to `min h H0 × min w W0` and
`expand` then yields a grid indexed by the requested sizes, or fails. -/
def cropExpand (g : ℕ → ℕ → ℕ → ℝ) (H0 W0 h w : ℕ) : Option (ℕ → ℕ → ℕ → ℝ) :=
  match expandDim (min h H0) h, expandDim (min w W0) w with
  | some fi, some fj => some (fun c i j => g c (fi i) (fj j))
  | _, _ => none

/-- The cache consultation in `pixel2cam`: regenerate via `set_id_grid`
when the cache is empty or its stored height is below the requested
height, then crop and expand the (possibly stale) grid to the requested
sizes.  Returns the new cache state and the grid the pipeline will use. -/
def pixel2cam_fetch (cache : Option ((ℕ → ℕ → ℕ → ℝ) × ℕ × ℕ)) (h w : ℕ) :
    ((ℕ → ℕ → ℕ → ℝ) × ℕ × ℕ) × Option (ℕ → ℕ → ℕ → ℝ) :=
  let st := match cache with
    | none => (id_grid, h, w)
    | some (g, H0, W0) => if H0 < h then (id_grid, h, w) else (g, H0, W0)
  (st, cropExpand st.1 st.2.1 st.2.2 h w)

/-- A fetch from the empty cache supplies exactly the freshly built
grid. -/
lemma pixel2cam_fetch_none (h w : ℕ) :
    (pixel2cam_fetch none h w).2 = some id_grid := by
  simp [pixel2cam_fetch, cropExpand, expandDim]

/-! ## Value-level geometry

All batched tensor operations of the source (`bmm`, elementwise products,
`clamp`, masked writes) act independently on each batch element, so the
value level is stated per batch element: a depth map is a function
`Fin h → Fin w → ℝ`, a `[3,3]` or `[3,4]` matrix is a Mathlib `Matrix`,
and a `[3,H,W]` tensor is `Fin 3 → Fin h → Fin w → ℝ`. -/

variable {h w : ℕ}

noncomputable section

/-- `pixel2cam`: `intrinsics_inv.bmm(current_pixel_coords)` applied to the
homogeneous grid cell `(j, i, 1)`, scaled by the depth at that pixel
(`cam_coords * depth.unsqueeze(1)`).  Stated for the grid a clean fetch
supplies (`pixel2cam_fetch_none`); the stale-cache path is modelled by
`pixel2cam_fetch`. -/
def pixel2cam (depth : Fin h → Fin w → ℝ)
    (intrinsics_inv : Matrix (Fin 3) (Fin 3) ℝ) :
    Fin 3 → Fin h → Fin w → ℝ :=
  fun c i j =>
    (∑ m : Fin 3, intrinsics_inv c m * id_grid (m : ℕ) (i : ℕ) (j : ℕ)) * depth i j

/-- `pcoords = proj_c2p[:,:,:3].bmm(cam_coords_flat) + proj_c2p[:,:,3:]`:
the rotation block of the `[3,4]` projection applied to the camera point,
plus the translation column. -/
def pcoords (cam : Fin 3 → Fin h → Fin w → ℝ) (proj : Matrix (Fin 3) (Fin 4) ℝ)
    (c : Fin 3) (i : Fin h) (j : Fin w) : ℝ :=
  (∑ k : Fin 3, proj c k.castSucc * cam k i j) + proj c 3

/-- `Z = pcoords[:, 2].clamp(min=1e-3)`. -/
def clampZ (z : ℝ) : ℝ := max z (1 / 1000)

/-- The normalization denominator `w - 1` (resp. `h - 1`), computed in the
ambient numeric type. -/
def norm_denom (n : ℕ) : ℝ := (n : ℝ) - 1

/-- `X_norm = 2*(X / Z)/(w-1) - 1` before masking. -/
def X_norm (cam : Fin 3 → Fin h → Fin w → ℝ) (proj : Matrix (Fin 3) (Fin 4) ℝ)
    (i : Fin h) (j : Fin w) : ℝ :=
  2 * (pcoords cam proj 0 i j / clampZ (pcoords cam proj 2 i j)) / norm_denom w - 1

/-- `Y_norm = 2*(Y / Z)/(h-1) - 1` before masking. -/
def Y_norm (cam : Fin 3 → Fin h → Fin w → ℝ) (proj : Matrix (Fin 3) (Fin 4) ℝ)
    (i : Fin h) (j : Fin w) : ℝ :=
  2 * (pcoords cam proj 1 i j / clampZ (pcoords cam proj 2 i j)) / norm_denom h - 1

/-- The masked write `X_norm[(X_norm > 1) + (X_norm < -1)] = 2`: a value
strictly outside `[-1, 1]` is replaced by the sentinel `2`. -/
def maskSentinel (v : ℝ) : ℝ := if 1 < v ∨ v < -1 then 2 else v

/-- `cam2pixel`: the `(X_norm, Y_norm)` entry of the returned
`[B, H, W, 2]` coordinate tensor, after masking each axis
independently. -/
def cam2pixel (cam : Fin 3 → Fin h → Fin w → ℝ) (proj : Matrix (Fin 3) (Fin 4) ℝ)
    (i : Fin h) (j : Fin w) : ℝ × ℝ :=
  (maskSentinel (X_norm cam proj i j), maskSentinel (Y_norm cam proj i j))

/-- The per-entry normalization of `cam2pixel` as a function of the raw
homogeneous coordinates `(X, Y, Z)` and the spatial sizes. -/
def normPair (X Y z : ℝ) (hh ww : ℕ) : ℝ × ℝ :=
  (maskSentinel (2 * (X / clampZ z) / norm_denom ww - 1),
   maskSentinel (2 * (Y / clampZ z) / norm_denom hh - 1))

lemma cam2pixel_eq_normPair (cam : Fin 3 → Fin h → Fin w → ℝ)
    (proj : Matrix (Fin 3) (Fin 4) ℝ) (i : Fin h) (j : Fin w) :
    cam2pixel cam proj i j =
      normPair (pcoords cam proj 0 i j) (pcoords cam proj 1 i j)
        (pcoords cam proj 2 i j) h w := rfl

/-! ## Rotation composer and pose assembler -/

/-- `euler2mat(z, y, x) = xmat.bmm(ymat).bmm(zmat)`.  In the source the
zero entries are the tensor `zeros = z*0` and the unit entries are
`ones = zeros + 1`; the three stacked matrices are the elementary
rotations about the x, y and z axes. -/
def euler2mat (z y x : ℝ) : Matrix (Fin 3) (Fin 3) ℝ :=
  !![z * 0 + 1, z * 0, z * 0;
     z * 0, Real.cos x, -Real.sin x;
     z * 0, Real.sin x, Real.cos x] *
  !![Real.cos y, z * 0, Real.sin y;
     z * 0, z * 0 + 1, z * 0;
     -Real.sin y, z * 0, Real.cos y] *
  !![Real.cos z, -Real.sin z, z * 0;
     Real.sin z, Real.cos z, z * 0;
     z * 0, z * 0, z * 0 + 1]

/-- The elementary z-rotation as written in the specification. -/
def Rz_spec (t : ℝ) : Matrix (Fin 3) (Fin 3) ℝ :=
  !![Real.cos t, -Real.sin t, 0;
     Real.sin t, Real.cos t, 0;
     0, 0, 1]

/-- The elementary y-rotation as written in the specification. -/
def Ry_spec (t : ℝ) : Matrix (Fin 3) (Fin 3) ℝ :=
  !![Real.cos t, 0, Real.sin t;
     0, 1, 0;
     -Real.sin t, 0, Real.cos t]

/-- The elementary x-rotation as written in the specification. -/
def Rx_spec (t : ℝ) : Matrix (Fin 3) (Fin 3) ℝ :=
  !![1, 0, 0;
     0, Real.cos t, -Real.sin t;
     0, Real.sin t, Real.cos t]

lemma euler2mat_decomp (z y x : ℝ) :
    euler2mat z y x = Rx_spec x * Ry_spec y * Rz_spec z := by
  simp only [euler2mat, Rx_spec, Ry_spec, Rz_spec, mul_zero, zero_add]

/-- `pose_vec2mat(vec)`: translation `vec[:, :3]`, angles
`rx = vec[:, 3]`, `ry = vec[:, 4]`, `rz = vec[:, 5]`, rotation
`euler2mat(rz, ry, rx)`, result `[R | t]`. -/
def pose_vec2mat (vec : Fin 6 → ℝ) : Matrix (Fin 3) (Fin 4) ℝ :=
  Matrix.of fun i j =>
    if hj : (j : ℕ) < 3 then euler2mat (vec 5) (vec 4) (vec 3) i ⟨(j : ℕ), hj⟩
    else vec (Fin.castLE (by norm_num) i)

/-- Modelled from the specification wording of the pose assembler: split
the pose vector into translation and angles, call the rotation composer
with `(rz, ry, rx)` so that the rotation is `Rx(rx)·Ry(ry)·Rz(rz)`, and
concatenate `[R | t]`. -/
def pose_to_transform (vec : Fin 6 → ℝ) : Matrix (Fin 3) (Fin 4) ℝ :=
  Matrix.of fun i j =>
    if hj : (j : ℕ) < 3 then
      (Rx_spec (vec 3) * Ry_spec (vec 4) * Rz_spec (vec 5)) i ⟨(j : ℕ), hj⟩
    else vec (Fin.castLE (by norm_num) i)

/-- The normalized sampling coordinates computed by `inverse_warp`:
`cam2pixel(pixel2cam(depth, intrinsics_inv), intrinsics.bmm(pose_vec2mat(pose)))`. -/
def warp_coords (depth : Fin h → Fin w → ℝ) (pose : Fin 6 → ℝ)
    (intrinsics intrinsics_inv : Matrix (Fin 3) (Fin 3) ℝ)
    (i : Fin h) (j : Fin w) : ℝ × ℝ :=
  cam2pixel (pixel2cam depth intrinsics_inv) (intrinsics * pose_vec2mat pose) i j

end

/-! ## Rotation algebra helpers -/

lemma Rz_spec_zero : Rz_spec 0 = 1 := by
  rw [Rz_spec, Matrix.one_fin_three]
  norm_num

lemma Ry_spec_zero : Ry_spec 0 = 1 := by
  rw [Ry_spec, Matrix.one_fin_three]
  norm_num

lemma Rx_spec_zero : Rx_spec 0 = 1 := by
  rw [Rx_spec, Matrix.one_fin_three]
  norm_num

lemma euler2mat_zero : euler2mat 0 0 0 = 1 := by
  rw [euler2mat_decomp, Rx_spec_zero, Ry_spec_zero, Rz_spec_zero, mul_one, mul_one]

lemma Rz_spec_orth (t : ℝ) : Rz_spec t * (Rz_spec t)ᵀ = 1 := by
  have ht : (Rz_spec t)ᵀ =
      !![Real.cos t, Real.sin t, 0; -Real.sin t, Real.cos t, 0; 0, 0, 1] := by
    ext i j
    fin_cases i <;> fin_cases j <;> rfl
  rw [ht, Rz_spec, Matrix.mul_fin_three, Matrix.one_fin_three]
  ext i j
  fin_cases i <;> fin_cases j <;> simp [Matrix.vecHead, Matrix.vecTail] <;>
    nlinarith [Real.sin_sq_add_cos_sq t]

lemma Ry_spec_orth (t : ℝ) : Ry_spec t * (Ry_spec t)ᵀ = 1 := by
  have ht : (Ry_spec t)ᵀ =
      !![Real.cos t, 0, -Real.sin t; 0, 1, 0; Real.sin t, 0, Real.cos t] := by
    ext i j
    fin_cases i <;> fin_cases j <;> rfl
  rw [ht, Ry_spec, Matrix.mul_fin_three, Matrix.one_fin_three]
  ext i j
  fin_cases i <;> fin_cases j <;> simp [Matrix.vecHead, Matrix.vecTail] <;>
    nlinarith [Real.sin_sq_add_cos_sq t]

lemma Rx_spec_orth (t : ℝ) : Rx_spec t * (Rx_spec t)ᵀ = 1 := by
  have ht : (Rx_spec t)ᵀ =
      !![1, 0, 0; 0, Real.cos t, Real.sin t; 0, -Real.sin t, Real.cos t] := by
    ext i j
    fin_cases i <;> fin_cases j <;> rfl
  rw [ht, Rx_spec, Matrix.mul_fin_three, Matrix.one_fin_three]
  ext i j
  fin_cases i <;> fin_cases j <;> simp [Matrix.vecHead, Matrix.vecTail] <;>
    nlinarith [Real.sin_sq_add_cos_sq t]

lemma orth_mul {A B : Matrix (Fin 3) (Fin 3) ℝ}
    (hA : A * Aᵀ = 1) (hB : B * Bᵀ = 1) : (A * B) * (A * B)ᵀ = 1 := by
  rw [Matrix.transpose_mul, mul_assoc, ← mul_assoc B, hB, one_mul, hA]

/-! ## The zero-pose projection -/

lemma pose_vec2mat_rot (vec : Fin 6 → ℝ) (i k : Fin 3) :
    pose_vec2mat vec i k.castSucc = euler2mat (vec 5) (vec 4) (vec 3) i k := by
  have hk : ((k.castSucc : Fin 4) : ℕ) < 3 := by
    rw [Fin.coe_castSucc]; exact k.isLt
  rw [pose_vec2mat, Matrix.of_apply, dif_pos hk]
  congr 1

lemma pose_vec2mat_trans (vec : Fin 6 → ℝ) (i : Fin 3) :
    pose_vec2mat vec i 3 = vec (Fin.castLE (by norm_num) i) := by
  rw [pose_vec2mat, Matrix.of_apply, dif_neg (by decide)]

lemma proj_zero_rot (K : Matrix (Fin 3) (Fin 3) ℝ) (c k : Fin 3) :
    (K * pose_vec2mat fun _ => 0) c k.castSucc = K c k := by
  rw [Matrix.mul_apply]
  have hentry : ∀ m : Fin 3, pose_vec2mat (fun _ => 0) m k.castSucc =
      (1 : Matrix (Fin 3) (Fin 3) ℝ) m k := by
    intro m
    rw [pose_vec2mat_rot, euler2mat_zero]
  simp only [hentry]
  simp [Matrix.one_apply, mul_ite, mul_one, mul_zero]

lemma proj_zero_trans (K : Matrix (Fin 3) (Fin 3) ℝ) (c : Fin 3) :
    (K * pose_vec2mat fun _ => 0) c 3 = 0 := by
  rw [Matrix.mul_apply]
  simp [pose_vec2mat_trans]

/-- With a zero pose vector and an exact inverse of the intrinsics, the
homogeneous coordinates produced by the pipeline reduce to the original
grid cell scaled by the depth. -/
lemma pcoords_zero_pose {h w : ℕ} (K Kinv : Matrix (Fin 3) (Fin 3) ℝ)
    (hK : K * Kinv = 1) (depth : Fin h → Fin w → ℝ)
    (c : Fin 3) (i : Fin h) (j : Fin w) :
    pcoords (pixel2cam depth Kinv) (K * pose_vec2mat fun _ => 0) c i j =
      id_grid (c : ℕ) (i : ℕ) (j : ℕ) * depth i j := by
  unfold pcoords pixel2cam
  simp only [proj_zero_rot, proj_zero_trans, add_zero]
  rw [show (∑ k : Fin 3, K c k *
        ((∑ m : Fin 3, Kinv k m * id_grid (m : ℕ) (i : ℕ) (j : ℕ)) * depth i j)) =
      (∑ k : Fin 3, K c k *
        (∑ m : Fin 3, Kinv k m * id_grid (m : ℕ) (i : ℕ) (j : ℕ))) * depth i j from by
    rw [Finset.sum_mul]
    exact Finset.sum_congr rfl fun k _ => (mul_assoc _ _ _).symm]
  congr 1
  calc ∑ k : Fin 3, K c k * ∑ m : Fin 3, Kinv k m * id_grid (m : ℕ) (i : ℕ) (j : ℕ)
      = ∑ k : Fin 3, ∑ m : Fin 3, K c k * (Kinv k m * id_grid (m : ℕ) (i : ℕ) (j : ℕ)) := by
        exact Finset.sum_congr rfl fun k _ => Finset.mul_sum _ _ _
    _ = ∑ m : Fin 3, ∑ k : Fin 3, K c k * (Kinv k m * id_grid (m : ℕ) (i : ℕ) (j : ℕ)) :=
        Finset.sum_comm
    _ = ∑ m : Fin 3, (∑ k : Fin 3, K c k * Kinv k m) * id_grid (m : ℕ) (i : ℕ) (j : ℕ) := by
        refine Finset.sum_congr rfl fun m _ => ?_
        rw [Finset.sum_mul]
        exact Finset.sum_congr rfl fun k _ => (mul_assoc _ _ _).symm
    _ = ∑ m : Fin 3, (K * Kinv) c m * id_grid (m : ℕ) (i : ℕ) (j : ℕ) := by
        refine Finset.sum_congr rfl fun m _ => ?_
        rw [Matrix.mul_apply]
    _ = ∑ m : Fin 3, (1 : Matrix (Fin 3) (Fin 3) ℝ) c m * id_grid (m : ℕ) (i : ℕ) (j : ℕ) := by
        rw [hK]
    _ = id_grid (c : ℕ) (i : ℕ) (j : ℕ) := by
        simp [Matrix.one_apply]

/-! ## Claim theorems -/

/-- C1 (amended).  Identity warp round-trip: for a pipeline call with the
all-zero pose vector, `intrinsics_inv` a true inverse of `intrinsics`,
spatial sizes at least `2` in each direction, and every depth value at
least the clamp threshold `1e-3` (so that the `Z`-clamp is a no-op), the
reprojected normalized coordinates at entry `(i, j)` equal the original
pixel grid normalized the same way: `(2*j/(W-1) - 1, 2*i/(H-1) - 1)`. -/
theorem identity_warp_grid {h w : ℕ} (hh : 2 ≤ h) (hw : 2 ≤ w)
    (K Kinv : Matrix (Fin 3) (Fin 3) ℝ) (hK : K * Kinv = 1)
    (depth : Fin h → Fin w → ℝ) (hd : ∀ i j, 1 / 1000 ≤ depth i j)
    (i : Fin h) (j : Fin w) :
    warp_coords depth (fun _ => 0) K Kinv i j =
      (2 * ((j : ℕ) : ℝ) / norm_denom w - 1, 2 * ((i : ℕ) : ℝ) / norm_denom h - 1) := by
  have hdij := hd i j
  have hd0 : depth i j ≠ 0 :=
    ne_of_gt (lt_of_lt_of_le (by norm_num) hdij)
  have hX : X_norm (pixel2cam depth Kinv) (K * pose_vec2mat fun _ => 0) i j =
      2 * ((j : ℕ) : ℝ) / norm_denom w - 1 := by
    rw [X_norm, pcoords_zero_pose K Kinv hK depth 0 i j,
      pcoords_zero_pose K Kinv hK depth 2 i j]
    norm_num [id_grid, clampZ, max_eq_left hdij, mul_div_cancel_right₀ _ hd0]
  have hY : Y_norm (pixel2cam depth Kinv) (K * pose_vec2mat fun _ => 0) i j =
      2 * ((i : ℕ) : ℝ) / norm_denom h - 1 := by
    rw [Y_norm, pcoords_zero_pose K Kinv hK depth 1 i j,
      pcoords_zero_pose K Kinv hK depth 2 i j]
    norm_num [id_grid, clampZ, max_eq_left hdij, mul_div_cancel_right₀ _ hd0]
  have range : ∀ (n : ℕ) (k : ℕ), 2 ≤ n → k < n →
      -1 ≤ 2 * (k : ℝ) / norm_denom n - 1 ∧ 2 * (k : ℝ) / norm_denom n - 1 ≤ 1 := by
    intro n k hn hk
    have hnR : (2 : ℝ) ≤ (n : ℝ) := by exact_mod_cast hn
    have hkR : (k : ℝ) + 1 ≤ (n : ℝ) := by exact_mod_cast hk
    have hpos : (0 : ℝ) < (n : ℝ) - 1 := by linarith
    constructor
    · have h0 : (0 : ℝ) ≤ 2 * (k : ℝ) / ((n : ℝ) - 1) :=
        div_nonneg (by positivity) hpos.le
      simp only [norm_denom]
      linarith
    · have h2 : 2 * (k : ℝ) / ((n : ℝ) - 1) ≤ 2 := by
        rw [div_le_iff₀ hpos]
        linarith
      simp only [norm_denom]
      linarith
  obtain ⟨hxge, hxle⟩ := range w (j : ℕ) hw j.isLt
  obtain ⟨hyge, hyle⟩ := range h (i : ℕ) hh i.isLt
  have hxmask : maskSentinel (2 * ((j : ℕ) : ℝ) / norm_denom w - 1) =
      2 * ((j : ℕ) : ℝ) / norm_denom w - 1 := by
    rw [maskSentinel, if_neg]
    rw [not_or]
    exact ⟨not_lt.mpr hxle, not_lt.mpr hxge⟩
  have hymask : maskSentinel (2 * ((i : ℕ) : ℝ) / norm_denom h - 1) =
      2 * ((i : ℕ) : ℝ) / norm_denom h - 1 := by
    rw [maskSentinel, if_neg]
    rw [not_or]
    exact ⟨not_lt.mpr hyle, not_lt.mpr hyge⟩
  rw [warp_coords, cam2pixel, hX, hY, hxmask, hymask]

/-- C1 witness: a concrete `2 × 2` identity-intrinsics call with unit
depth, evaluated at entry `(0, 1)`. -/
theorem identity_warp_grid_witness :
    warp_coords (fun _ _ => (1 : ℝ)) (fun _ => 0) 1 1 (0 : Fin 2) (1 : Fin 2) =
      (2 * (((1 : Fin 2) : ℕ) : ℝ) / norm_denom 2 - 1,
       2 * (((0 : Fin 2) : ℕ) : ℝ) / norm_denom 2 - 1) :=
  identity_warp_grid (by norm_num) (by norm_num) 1 1 (mul_one 1)
    (fun _ _ => 1) (fun _ _ => by norm_num) 0 1

/-- C1 counterexample: the claim as stated (any positive depth, clamp a
no-op) fails.  With the everywhere-positive depth `1/2000 < 1e-3`, zero
pose and identity intrinsics, the reprojected coordinate at entry `(1,1)`
of a `2 × 2` grid is `(0, 0)`, not the normalized grid value `(1, 1)`:
the clamp replaces `Z = 1/2000` by `1e-3` while `X = j/2000` keeps its
value. -/
theorem identity_warp_positive_depth_fails :
    (0 : ℝ) < 1 / 2000 ∧
    warp_coords (fun _ _ => (1 / 2000 : ℝ)) (fun _ => 0) 1 1 (1 : Fin 2) (1 : Fin 2) ≠
      (2 * (((1 : Fin 2) : ℕ) : ℝ) / norm_denom 2 - 1,
       2 * (((1 : Fin 2) : ℕ) : ℝ) / norm_denom 2 - 1) := by
  refine ⟨by norm_num, ?_⟩
  have hval : warp_coords (fun _ _ => (1 / 2000 : ℝ)) (fun _ => 0) 1 1
      (1 : Fin 2) (1 : Fin 2) = (0, 0) := by
    rw [warp_coords, cam2pixel, X_norm, Y_norm]
    rw [pcoords_zero_pose 1 1 (mul_one 1) _ 0 1 1,
      pcoords_zero_pose 1 1 (mul_one 1) _ 1 1 1,
      pcoords_zero_pose 1 1 (mul_one 1) _ 2 1 1]
    norm_num [id_grid, clampZ, norm_denom, maskSentinel,
      max_eq_right (by norm_num : (1 / 2000 : ℝ) ≤ 1 / 1000)]
  rw [hval]
  intro hcontra
  rw [Prod.mk.injEq] at hcontra
  have := hcontra.1
  rw [norm_denom] at this
  norm_num at this

lemma castSucc0 : (Fin.castSucc (0 : Fin 3) : Fin 4) = 0 := rfl

lemma castSucc1 : (Fin.castSucc (1 : Fin 3) : Fin 4) = 1 := rfl

lemma castSucc2 : (Fin.castSucc (2 : Fin 3) : Fin 4) = 2 := rfl

/-- C3.  Validity masking in `cam2pixel`: any normalized X coordinate
strictly outside `[-1, 1]` is overwritten with the sentinel `2`, any
normalized X coordinate inside `[-1, 1]` is kept unchanged, and
independently the same holds for the normalized Y coordinate. -/
theorem masking_sentinel {h w : ℕ} (cam : Fin 3 → Fin h → Fin w → ℝ)
    (proj : Matrix (Fin 3) (Fin 4) ℝ) (i : Fin h) (j : Fin w) :
    ((1 < X_norm cam proj i j ∨ X_norm cam proj i j < -1) →
      (cam2pixel cam proj i j).1 = 2) ∧
    (-1 ≤ X_norm cam proj i j → X_norm cam proj i j ≤ 1 →
      (cam2pixel cam proj i j).1 = X_norm cam proj i j) ∧
    ((1 < Y_norm cam proj i j ∨ Y_norm cam proj i j < -1) →
      (cam2pixel cam proj i j).2 = 2) ∧
    (-1 ≤ Y_norm cam proj i j → Y_norm cam proj i j ≤ 1 →
      (cam2pixel cam proj i j).2 = Y_norm cam proj i j) := by
  refine ⟨?_, ?_, ?_, ?_⟩
  · intro hout
    show maskSentinel (X_norm cam proj i j) = 2
    rw [maskSentinel, if_pos hout]
  · intro hge hle
    show maskSentinel (X_norm cam proj i j) = X_norm cam proj i j
    rw [maskSentinel, if_neg]
    rw [not_or]
    exact ⟨not_lt.mpr hle, not_lt.mpr hge⟩
  · intro hout
    show maskSentinel (Y_norm cam proj i j) = 2
    rw [maskSentinel, if_pos hout]
  · intro hge hle
    show maskSentinel (Y_norm cam proj i j) = Y_norm cam proj i j
    rw [maskSentinel, if_neg]
    rw [not_or]
    exact ⟨not_lt.mpr hle, not_lt.mpr hge⟩

/-- C3 witness: a `2 × 2` case whose homogeneous coordinates are
`(X, Y, Z) = (5, 0, 4)` at every pixel, so the normalized X coordinate is
`1.5` and is overwritten with the sentinel `2`, while the in-range Y
coordinate (value `-1`) is kept. -/
theorem masking_sentinel_witness :
    (cam2pixel (fun c _ _ => if c = 0 then (5 : ℝ) else if c = 2 then 4 else 0 :
        Fin 3 → Fin 2 → Fin 2 → ℝ)
      !![1, 0, 0, 0; 0, 1, 0, 0; 0, 0, 1, 0] (0 : Fin 2) (0 : Fin 2)).1 = 2 ∧
    (cam2pixel (fun c _ _ => if c = 0 then (5 : ℝ) else if c = 2 then 4 else 0 :
        Fin 3 → Fin 2 → Fin 2 → ℝ)
      !![1, 0, 0, 0; 0, 1, 0, 0; 0, 0, 1, 0] (0 : Fin 2) (0 : Fin 2)).2 =
      Y_norm (fun c _ _ => if c = 0 then (5 : ℝ) else if c = 2 then 4 else 0 :
        Fin 3 → Fin 2 → Fin 2 → ℝ)
      !![1, 0, 0, 0; 0, 1, 0, 0; 0, 0, 1, 0] (0 : Fin 2) (0 : Fin 2) := by
  have hx : X_norm (fun c _ _ => if c = 0 then (5 : ℝ) else if c = 2 then 4 else 0 :
        Fin 3 → Fin 2 → Fin 2 → ℝ)
      !![1, 0, 0, 0; 0, 1, 0, 0; 0, 0, 1, 0] (0 : Fin 2) (0 : Fin 2) = 3 / 2 := by
    rw [X_norm]
    simp [pcoords, Fin.sum_univ_three, castSucc0, castSucc1, castSucc2,
      Matrix.vecHead, Matrix.vecTail, clampZ, norm_denom]
    norm_num [max_eq_left (by norm_num : (1 / 1000 : ℝ) ≤ 4)]
  have hy : Y_norm (fun c _ _ => if c = 0 then (5 : ℝ) else if c = 2 then 4 else 0 :
        Fin 3 → Fin 2 → Fin 2 → ℝ)
      !![1, 0, 0, 0; 0, 1, 0, 0; 0, 0, 1, 0] (0 : Fin 2) (0 : Fin 2) = -1 := by
    rw [Y_norm]
    simp [pcoords, Fin.sum_univ_three, castSucc0, castSucc1, castSucc2,
      Matrix.vecHead, Matrix.vecTail, clampZ, norm_denom]
  exact ⟨(masking_sentinel _ _ 0 0).1 (Or.inl (by rw [hx]; norm_num)),
    (masking_sentinel _ _ 0 0).2.2.2 (by rw [hy]) (by rw [hy]; norm_num)⟩

/-- C4.  Depth clamp guard: the clamped homogeneous depth is always
strictly positive (so the division in the normalization never divides by
zero or by a negative depth), the per-entry normalization at raw depth
`-5` agrees exactly with the normalization at depth `1e-3`, and any
`cam2pixel` entry whose raw homogeneous depth is `-5` equals the entry
computed as if the depth were `1e-3`. -/
theorem depth_clamp_guard :
    (∀ z : ℝ, 0 < clampZ z) ∧
    (∀ (X Y : ℝ) (hh ww : ℕ), normPair X Y (-5) hh ww = normPair X Y (1 / 1000) hh ww) ∧
    (∀ {h w : ℕ} (cam : Fin 3 → Fin h → Fin w → ℝ) (proj : Matrix (Fin 3) (Fin 4) ℝ)
      (i : Fin h) (j : Fin w), pcoords cam proj 2 i j = -5 →
      cam2pixel cam proj i j =
        normPair (pcoords cam proj 0 i j) (pcoords cam proj 1 i j) (1 / 1000) h w) := by
  have hclamp : ∀ z : ℝ, 0 < clampZ z := fun z =>
    lt_of_lt_of_le (by norm_num) (le_max_right z (1 / 1000))
  have hpair : ∀ (X Y : ℝ) (hh ww : ℕ),
      normPair X Y (-5) hh ww = normPair X Y (1 / 1000) hh ww := by
    intro X Y hh ww
    rw [normPair, normPair, clampZ, clampZ,
      max_eq_right (by norm_num : (-5 : ℝ) ≤ 1 / 1000), max_self]
  refine ⟨hclamp, hpair, ?_⟩
  intro h w cam proj i j hz
  rw [cam2pixel_eq_normPair, hz]
  exact hpair _ _ h w

/-- C4 witness: a concrete entry with raw homogeneous depth `-5` equals
the entry computed with depth `1e-3`. -/
theorem depth_clamp_guard_witness :
    cam2pixel (fun c _ _ => if c = 2 then (-5 : ℝ) else 3 : Fin 3 → Fin 2 → Fin 2 → ℝ)
      !![1, 0, 0, 0; 0, 1, 0, 0; 0, 0, 1, 0] (0 : Fin 2) (0 : Fin 2) =
      normPair
        (pcoords (fun c _ _ => if c = 2 then (-5 : ℝ) else 3 : Fin 3 → Fin 2 → Fin 2 → ℝ)
          !![1, 0, 0, 0; 0, 1, 0, 0; 0, 0, 1, 0] 0 (0 : Fin 2) (0 : Fin 2))
        (pcoords (fun c _ _ => if c = 2 then (-5 : ℝ) else 3 : Fin 3 → Fin 2 → Fin 2 → ℝ)
          !![1, 0, 0, 0; 0, 1, 0, 0; 0, 0, 1, 0] 1 (0 : Fin 2) (0 : Fin 2))
        (1 / 1000) 2 2 :=
  depth_clamp_guard.2.2 _ _ 0 0 (by
    simp [pcoords, Fin.sum_univ_three, castSucc0, castSucc1, castSucc2,
      Matrix.vecHead, Matrix.vecTail])

/-- C5.  Rotation composer definition: `euler2mat (z, y, x)` is exactly
the product `Rx(x) · Ry(y) · Rz(z)` of the three elementary right-handed
rotations listed in the specification (the z-rotation is applied first to
a column vector, then y, then x). -/
theorem euler2mat_is_spec_composition :
    ∀ z y x : ℝ, euler2mat z y x = Rx_spec x * Ry_spec y * Rz_spec z :=
  fun z y x => euler2mat_decomp z y x

/-- C6.  Pose assembler definition: `pose_vec2mat` splits the pose vector
into translation `vec[:, 0:3]` and angles `(rx, ry, rz) = vec[3..5]`,
calls the composer positionally with `(rz, ry, rx)` — so the rotation
block is `Rx(rx) · Ry(ry) · Rz(rz)` — and returns the concatenation
`[R | t]`. -/
theorem pose_vec2mat_is_spec_assembly :
    ∀ vec : Fin 6 → ℝ, pose_vec2mat vec = pose_to_transform vec := by
  intro vec
  ext i j
  rw [pose_vec2mat, pose_to_transform, Matrix.of_apply, Matrix.of_apply]
  by_cases hj : (j : ℕ) < 3
  · rw [dif_pos hj, dif_pos hj, euler2mat_decomp]
  · rw [dif_neg hj, dif_neg hj]

/-- C9.  Rotation composer algebra: `euler2mat 0 0 0` is the identity
matrix, and for arbitrary real angles the composed rotation `R` satisfies
`R · Rᵀ = 1` exactly over the reals. -/
theorem euler2mat_identity_orthonormal :
    euler2mat 0 0 0 = 1 ∧
    ∀ z y x : ℝ, euler2mat z y x * (euler2mat z y x)ᵀ = 1 := by
  refine ⟨euler2mat_zero, ?_⟩
  intro z y x
  rw [euler2mat_decomp]
  exact orth_mul (orth_mul (Rx_spec_orth x) (Ry_spec_orth y)) (Rz_spec_orth z)

lemma pixel2cam_fetch_none_state (h w : ℕ) :
    (pixel2cam_fetch none h w).1 = (id_grid, h, w) := rfl

lemma pixel2cam_fetch_regrow (h1 w1 h2 w2 : ℕ) (hh : h1 < h2) :
    (pixel2cam_fetch (some (id_grid, h1, w1)) h2 w2).2 = some id_grid := by
  simp [pixel2cam_fetch, cropExpand, expandDim, hh]

/-- C7.  Cache growth: starting from the empty cache, a call at the
smaller `h1 × w1` followed by a call at the strictly larger `h2 × w2`
both obtain a grid holding `(column_index, row_index, 1.0)` in every
cell; the growth path never reuses the undersized grid, because the
height comparison triggers regeneration at the full new size. -/
theorem cache_growth (h1 w1 h2 w2 : ℕ) (hh : h1 < h2) (hw : w1 < w2) :
    (∃ g1, (pixel2cam_fetch none h1 w1).2 = some g1 ∧
      ∀ i j : ℕ, g1 0 i j = (j : ℝ) ∧ g1 1 i j = (i : ℝ) ∧ g1 2 i j = 1) ∧
    (∃ g2, (pixel2cam_fetch (some (pixel2cam_fetch none h1 w1).1) h2 w2).2 = some g2 ∧
      ∀ i j : ℕ, g2 0 i j = (j : ℝ) ∧ g2 1 i j = (i : ℝ) ∧ g2 2 i j = 1) := by
  constructor
  · exact ⟨id_grid, pixel2cam_fetch_none h1 w1, fun i j => ⟨rfl, rfl, rfl⟩⟩
  · rw [pixel2cam_fetch_none_state h1 w1]
    exact ⟨id_grid, pixel2cam_fetch_regrow h1 w1 h2 w2 hh, fun i j => ⟨rfl, rfl, rfl⟩⟩

/-- C7 witness: sizes `2 × 2` then `3 × 3`. -/
theorem cache_growth_witness :
    (∃ g1, (pixel2cam_fetch none 2 2).2 = some g1 ∧
      ∀ i j : ℕ, g1 0 i j = (j : ℝ) ∧ g1 1 i j = (i : ℝ) ∧ g1 2 i j = 1) ∧
    (∃ g2, (pixel2cam_fetch (some (pixel2cam_fetch none 2 2).1) 3 3).2 = some g2 ∧
      ∀ i j : ℕ, g2 0 i j = (j : ℝ) ∧ g2 1 i j = (i : ℝ) ∧ g2 2 i j = 1) :=
  cache_growth 2 2 3 3 (by norm_num) (by norm_num)

/-- C8.  Latent cache width gap: there is a sequence of calls — build the
cache at `2 × 1`, then request `2 × 2`, so the cached height `2` is not
smaller than the requested height but the requested width differs from
the cached width — for which the fetch silently succeeds yet supplies
wrong column indices: `expand` broadcasts the single cached column, so
the entry at column `1` holds column index `0` instead of `1`. -/
theorem cache_width_gap :
    ∃ g, (pixel2cam_fetch (some (pixel2cam_fetch none 2 1).1) 2 2).2 = some g ∧
      g 0 0 1 = 0 ∧ g 0 0 1 ≠ ((1 : ℕ) : ℝ) := by
  refine ⟨fun c i _ => id_grid c i 0, rfl, ?_, ?_⟩
  · norm_num [id_grid]
  · norm_num [id_grid]

/-- C10.  Implicit minimum-size precondition: the validators accept
`W = 1` (and `H = 1`) shapes, yet the normalization denominators used by
`cam2pixel` are `W - 1` and `H - 1`, which the depth clamp does not
protect; at `W = 1` (resp. `H = 1`) the X (resp. Y) normalization divides
by zero, while for sizes at least `2` the denominators are nonzero. -/
theorem min_size_precondition :
    (∀ b hh : ℕ, check_sizes [b, 3, hh, 1] "img" "B3HW" = .ok () ∧
      check_sizes [b, hh, 1] "depth" "BHW" = .ok ()) ∧
    norm_denom 1 = 0 ∧
    (∀ n : ℕ, 2 ≤ n → norm_denom n ≠ 0) ∧
    (∀ {hh : ℕ} (cam : Fin 3 → Fin hh → Fin 1 → ℝ) (proj : Matrix (Fin 3) (Fin 4) ℝ)
      (i : Fin hh) (j : Fin 1),
      X_norm cam proj i j =
        2 * (pcoords cam proj 0 i j / clampZ (pcoords cam proj 2 i j)) / 0 - 1) ∧
    (∀ {ww : ℕ} (cam : Fin 3 → Fin 1 → Fin ww → ℝ) (proj : Matrix (Fin 3) (Fin 4) ℝ)
      (i : Fin 1) (j : Fin ww),
      Y_norm cam proj i j =
        2 * (pcoords cam proj 1 i j / clampZ (pcoords cam proj 2 i j)) / 0 - 1) := by
  have hdenom : norm_denom 1 = 0 := by rw [norm_denom]; norm_num
  refine ⟨fun b hh => ⟨rfl, rfl⟩, hdenom, ?_, ?_, ?_⟩
  · intro n hn
    have h2 : (2 : ℝ) ≤ (n : ℝ) := by exact_mod_cast hn
    rw [norm_denom]
    intro hzero
    linarith
  · intro hh cam proj i j
    rw [X_norm, hdenom]
  · intro ww cam proj i j
    rw [Y_norm, hdenom]

/-- C10 witness: the denominator is nonzero at width `2`. -/
theorem min_size_precondition_witness : norm_denom 2 ≠ 0 :=
  min_size_precondition.2.2.1 2 (by norm_num)

/-- C2 (amended).  Shape contract of the orchestrator: every conforming
input (shapes `[B,3,H,W]`, `[B,H,W]`, `[B,6]`, `[B,3,3]`, `[B,3,3]` with
shared sizes) passes validation and yields an output of shape
`[B,3,H,W]`; every input in which some argument has the wrong rank or a
mismatched fixed dimension makes the orchestrator fail during validation,
before any computation; and whenever the rank of the failing argument covers
all fixed-digit positions of its pattern, the failure is the descriptive
assertion error carrying the name passed to the checker (which is
`intrinsics` for both intrinsics arguments), the expected pattern and the
actual shape.  (When the rank is too small to index a fixed-digit
position, the failure is a dimension-out-of-range error instead — see the
counterexample.) -/
theorem shape_contract :
    (∀ b hh ww : ℕ,
      inverse_warp_shape [b, 3, hh, ww] [b, hh, ww] [b, 6] [b, 3, 3] [b, 3, 3] =
        .ok [b, 3, hh, ww]) ∧
    (∀ imgS depthS poseS KS KinvS : List ℕ,
      (matchesPattern imgS "B3HW".toList = false ∨
       matchesPattern depthS "BHW".toList = false ∨
       matchesPattern poseS "B6".toList = false ∨
       matchesPattern KS "B33".toList = false ∨
       matchesPattern KinvS "B33".toList = false) →
      ∃ e, inverse_warp_shape imgS depthS poseS KS KinvS = .error e) ∧
    (∀ (shape : List ℕ) (name pattern : String),
      digitsInRange shape pattern.toList 0 = true →
      matchesPattern shape pattern.toList = false →
      check_sizes shape name pattern = .error (.assertionError name pattern shape)) := by
  refine ⟨?_, ?_, fun shape name pattern => check_sizes_assertion shape name pattern⟩
  · intro b hh ww
    simp only [inverse_warp_shape, check_img_ok, check_depth_ok, check_pose_ok,
      check_intrinsics_ok]
    norm_num
  · intro imgS depthS poseS KS KinvS hbad
    cases hres : inverse_warp_shape imgS depthS poseS KS KinvS with
    | error e => exact ⟨e, rfl⟩
    | ok out =>
      exfalso
      obtain ⟨h1, h2, h3, h4, h5⟩ := inverse_warp_shape_ok _ _ _ _ _ _ hres
      rcases hbad with hb | hb | hb | hb | hb
      · have hm := (check_sizes_ok_iff _ _ _).mp h1
        rw [hb] at hm
        exact Bool.noConfusion hm
      · have hm := (check_sizes_ok_iff _ _ _).mp h2
        rw [hb] at hm
        exact Bool.noConfusion hm
      · have hm := (check_sizes_ok_iff _ _ _).mp h3
        rw [hb] at hm
        exact Bool.noConfusion hm
      · have hm := (check_sizes_ok_iff _ _ _).mp h4
        rw [hb] at hm
        exact Bool.noConfusion hm
      · have hm := (check_sizes_ok_iff _ _ _).mp h5
        rw [hb] at hm
        exact Bool.noConfusion hm

/-- C2 witness: a depth map of rank `2` is malformed and makes the
orchestrator fail. -/
theorem shape_contract_witness :
    ∃ e, inverse_warp_shape [2, 3, 4, 4] [2, 4] [2, 6] [2, 3, 3] [2, 3, 3] = .error e :=
  shape_contract.2.1 [2, 3, 4, 4] [2, 4] [2, 6] [2, 3, 3] [2, 3, 3]
    (Or.inr (Or.inl (by decide)))

/-- C2 counterexample: for an `img` of rank `1` (a malformed input), the
failure is a dimension-out-of-range error from `Tensor.size(1)` — raised
while the condition list is being built — which carries no argument name,
no expected pattern and no actual shape, contradicting the claim that
every malformed input produces the descriptive error. -/
theorem shape_contract_rank_error :
    inverse_warp_shape [5] [1, 4, 4] [1, 6] [1, 3, 3] [1, 3, 3] =
      .error (.dimOutOfRange 1) := rfl

end SfmLearner
